import Mathlib

/-!
Shallow embedding of the markdown.rs parser fragments under verification:
the `ObjectSize` size-annotation value (src/parser/mod.rs), the
`OrderedListType` marker-style enum (src/parser/mod.rs), and the image
span recognizer `parse_image` (src/parser/span/image.rs), whose regex
  ^!\[(?P<text>.*?)\]\((?P<url>.*?)(?:\s"(?P<title>.*?)")?(?:\s=(?P<size>[0-9xX%]*))?\)
is embedded as an explicit leftmost-first backtracking matcher over
lists of characters.  Strings are modelled by Lean `String`/`List Char`;
whitespace predicates cover the ASCII subset of Unicode whitespace, which
is exact on all inputs considered here.
-/

/-- ASCII whitespace, the ASCII fragment of what Rust's `char::is_whitespace`
and the regex class `\s` accept. -/
def isWsChar (c : Char) : Bool :=
  c = ' ' || c = '\t' || c = '\n' || c = '\x0b' || c = '\x0c' || c = '\r'

/-- The character class `[0-9xX%]` of the size capture group in the IMAGE regex. -/
def isSizeChar (c : Char) : Bool :=
  c.isDigit || c = 'x' || c = 'X' || c = '%'

/-- `OrderedListType` from src/parser/mod.rs. -/
inductive OrderedListType where
  | Numeric
  | Lowercase
  | Uppercase
  | LowercaseRoman
  | UppercaseRoman
deriving DecidableEq, Repr

/-- `OrderedListType::from_str` from src/parser/mod.rs: match on the marker string. -/
def OrderedListType.from_str (type_str : String) : OrderedListType :=
  if type_str = "a" then OrderedListType.Lowercase
  else if type_str = "A" then OrderedListType.Uppercase
  else if type_str = "i" then OrderedListType.LowercaseRoman
  else if type_str = "I" then OrderedListType.UppercaseRoman
  else OrderedListType.Numeric

/-- `OrderedListType::to_str` from src/parser/mod.rs. -/
def OrderedListType.to_str : OrderedListType → String
  | OrderedListType.Lowercase => "a"
  | OrderedListType.Uppercase => "A"
  | OrderedListType.LowercaseRoman => "i"
  | OrderedListType.UppercaseRoman => "I"
  | OrderedListType.Numeric => "1"

/-- `ObjectSize` from src/parser/mod.rs: optional width and height strings. -/
structure ObjectSize where
  width : Option String
  height : Option String
deriving DecidableEq, Repr

/-- `ObjectSize::as_text` from src/parser/mod.rs. -/
def ObjectSize.as_text (s : ObjectSize) : String :=
  match s.width, s.height with
  | some w, some h => w ++ "x" ++ h
  | some w, none => w ++ "x"
  | none, some h => "x" ++ h
  | none, none => ""

/-- `ObjectSize::as_html` from src/parser/mod.rs. -/
def ObjectSize.as_html (s : ObjectSize) : String :=
  match s.width, s.height with
  | some w, some h => "width=\"" ++ w ++ "\" height=\"" ++ h ++ "\""
  | some w, none => "width=\"" ++ w ++ "\""
  | none, some h => "height=\"" ++ h ++ "\""
  | none, none => ""

/-- `str::find(|c| c == 'x' || c == 'X')` followed by the two slices
`text[0..i]` and `text[i+1..]`: locate the first `x`/`X` and return the
pieces before and after it, or `none` when no separator occurs. -/
def splitAtSep : List Char → Option (List Char × List Char)
  | [] => none
  | c :: r =>
    if c = 'x' || c = 'X' then some ([], r)
    else (splitAtSep r).map (fun p => (c :: p.1, p.2))

/-- Rust `str::trim`: drop whitespace from both ends. -/
def trimChars (l : List Char) : List Char :=
  ((l.dropWhile isWsChar).reverse.dropWhile isWsChar).reverse

/-- `ObjectSize::from_text` from src/parser/mod.rs.  With a separator, the
trimmed sides become the fields (empty meaning absent), and the result exists
only if a side is non-empty; with no separator, the whole (untrimmed) text
becomes the width when the text is non-empty. -/
def ObjectSize.from_text (text : String) : Option ObjectSize :=
  match splitAtSep text.data with
  | some p =>
    if trimChars p.1 ≠ [] ∨ trimChars p.2 ≠ [] then
      some ⟨if trimChars p.1 = [] then none else some (String.mk (trimChars p.1)),
            if trimChars p.2 = [] then none else some (String.mk (trimChars p.2))⟩
    else none
  | none =>
    if text.data ≠ [] then some ⟨some text, none⟩ else none

/-- `Span` from src/parser/mod.rs: the inline node variants. -/
inductive Span where
  | Break
  | Text (s : String)
  | Code (s : String)
  | Literal (c : Char)
  | Link (content : List Span) (url : String) (title : Option String)
  | RefLink (content : List Span) (id : String) (raw : String)
  | Image (alt : String) (url : String) (title : Option String) (size : Option ObjectSize)
  | Emphasis (content : List Span)
  | Strong (content : List Span)
deriving Repr

/-- All ways to split a list into a prefix of non-newline characters and the
remaining suffix, ordered by increasing prefix length: the candidate matches,
in preference order, of a lazy `.*?` (where `.` excludes `\n`). -/
def splitsNoNl : List Char → List (List Char × List Char)
  | [] => [([], [])]
  | c :: r =>
    ([], c :: r) ::
      (if c = '\n' then []
       else (splitsNoNl r).map (fun p => (c :: p.1, p.2)))

/-- The first success of `f` along the list, in order: backtracking choice. -/
def firstSome (f : α → Option β) : List α → Option β
  | [] => none
  | a :: l =>
    match f a with
    | some b => some b
    | none => firstSome f l

/-- The maximal run of `[0-9xX%]` characters and the remaining suffix:
the greedy star of the size class. -/
def takeSizeRun : List Char → List Char × List Char
  | [] => ([], [])
  | c :: r =>
    if isSizeChar c then
      ((takeSizeRun r).1.cons c, (takeSizeRun r).2)
    else ([], c :: r)

/-- The literal `\)` ending the regex, with no size group participating. -/
def closeOnly : List Char → Option (Option (List Char) × List Char)
  | ')' :: r => some (none, r)
  | _ => none

/-- The participating size group `\s=([0-9xX%]*)` followed by `\)`:
one whitespace character, `=`, the greedy run, then a closing parenthesis.
(A shorter run than the maximal one cannot help, since the next character
would then be a size character, never `)`.) -/
def sizeGroupClose : List Char → Option (Option (List Char) × List Char)
  | c :: '=' :: r =>
    if isWsChar c then
      match takeSizeRun r with
      | (run, ')' :: r2) => some (some run, r2)
      | _ => none
    else none
  | _ => none

/-- The regex tail `(?:\s=(?P<size>[0-9xX%]*))?\)`: the optional group is
preferred, and on its failure the closing parenthesis is matched directly. -/
def matchSizeClose (l : List Char) : Option (Option (List Char) × List Char) :=
  match sizeGroupClose l with
  | some q => some q
  | none => closeOnly l

/-- The participating title group `\s"(?P<title>.*?)"` followed by the size
tail: one whitespace character, an opening quote, then the lazy title body
tried shortest-first, each candidate requiring its closing quote and a
successful size tail after it. -/
def titleGroupRest : List Char → Option (Option (List Char) × Option (List Char) × List Char)
  | c :: '\"' :: r =>
    if isWsChar c then
      firstSome (fun p =>
        match p.2 with
        | '\"' :: r2 => (matchSizeClose r2).map (fun q => (some p.1, q.1, q.2))
        | _ => none) (splitsNoNl r)
    else none
  | _ => none

/-- The regex tail `(?:\s"(?P<title>.*?)")?(?:\s=(?P<size>[0-9xX%]*))?\)`:
the optional title group is preferred, else the size tail alone. -/
def matchTitleSizeClose (l : List Char) : Option (Option (List Char) × Option (List Char) × List Char) :=
  match titleGroupRest l with
  | some q => some q
  | none => (matchSizeClose l).map (fun q => (none, q.1, q.2))

/-- The regex tail from the url capture on: the lazy `(?P<url>.*?)` tried
shortest-first, each candidate followed by the title/size/close tail.
Returns (url, title, size, remaining suffix). -/
def matchUrlOn (l : List Char) : Option (List Char × Option (List Char) × Option (List Char) × List Char) :=
  firstSome (fun p =>
    (matchTitleSizeClose p.2).map (fun q => (p.1, q.1, q.2.1, q.2.2))) (splitsNoNl l)

/-- The whole anchored IMAGE regex over a character list: the literal `![`,
the lazy alt text tried shortest-first up to its `](`, then the url tail.
Returns (text, url, title, size, remaining suffix), where title and size are
`none` when their optional group does not participate. -/
def imageCaptures : List Char → Option (List Char × List Char × Option (List Char) × Option (List Char) × List Char)
  | '!' :: '[' :: r =>
    firstSome (fun p =>
      match p.2 with
      | ']' :: '(' :: r2 =>
        (matchUrlOn r2).map (fun q => (p.1, q.1, q.2.1, q.2.2.1, q.2.2.2))
      | _ => none) (splitsNoNl r)
  | _ => none

/-- UTF-8 byte length of a character list, as Rust byte offsets measure it. -/
def utf8Len (l : List Char) : Nat := (l.map Char.utf8Size).sum

/-- `parse_image` from src/parser/span/image.rs: run the IMAGE regex anchored
at the start; on a match build `Span.Image` from the captures — the size
capture, when the group participates, is passed through
`ObjectSize.from_text` — and pair it with the byte offset of the match end. -/
def parse_image (text : String) : Option (Span × Nat) :=
  match imageCaptures text.data with
  | some (t, u, ti, sz, rem) =>
    some (Span.Image (String.mk t) (String.mk u) (ti.map String.mk)
            (match sz with
             | some cs => ObjectSize.from_text (String.mk cs)
             | none => none),
          utf8Len text.data - utf8Len rem)
  | none => none

/-- Every character of an optional string drawn from the size character
class, vacuously true for an absent string. -/
def allSizeStr : Option String → Bool
  | none => true
  | some s => s.data.all isSizeChar

/-- Both fields of an `ObjectSize` consist solely of `[0-9xX%]` characters. -/
def sizeStrOk (os : ObjectSize) : Bool :=
  allSizeStr os.width && allSizeStr os.height

theorem imageCaptures_shape (l : List Char) (x : List Char × List Char × Option (List Char) × Option (List Char) × List Char)
    (h : imageCaptures l = some x) : ∃ r, l = '!' :: '[' :: r := by
  unfold imageCaptures at h
  split at h
  · exact ⟨_, rfl⟩
  · exact absurd h (by simp)

/-- Claim C1: `parse_image` on the literal boundary inputs of the spec
produces exactly the stated results: alt "an example", url "example.com",
no title, no size, 26 characters consumed on the first input; url
"image.jpg" with size 111×222 on the second; and no size with url
"image.jpg" on the empty-size third input. -/
theorem parse_image_literal_boundaries :
    parse_image "![an example](example.com) test" =
      some (Span.Image "an example" "example.com" none none, 26) ∧
    parse_image "![my image](image.jpg =111x222) blah" =
      some (Span.Image "my image" "image.jpg" none
        (some ⟨some "111", some "222"⟩), 31) ∧
    parse_image "![my image](image.jpg =) blah" =
      some (Span.Image "my image" "image.jpg" none none, 24) :=
  ⟨rfl, rfl, rfl⟩

/-- Claim C4: a size annotation is only recognized inside the closing
parenthesis: on the input with a trailing " =111x222" outside the
parentheses the returned image spans only the 43-character bracket/paren
construct and carries no size. -/
theorem parse_image_size_outside_paren :
    parse_image "![an example](http://host.com/filepath.jpg) =111x222" =
      some (Span.Image "an example" "http://host.com/filepath.jpg" none none, 43) :=
  rfl

/-- Claim C5: `parse_image` is anchored at the start of its input: the input
with leading text "were " produces no match, and in general every successful
parse is of an input beginning with the two characters `![`. -/
theorem parse_image_anchored :
    parse_image "were ![an example](example.com) test" = none ∧
    ∀ (s : String) (sp : Span) (n : Nat),
      parse_image s = some (sp, n) → ∃ r, s.data = '!' :: '[' :: r := by
  refine ⟨rfl, fun s sp n h => ?_⟩
  unfold parse_image at h
  split at h
  · next t u ti sz rem heq => exact imageCaptures_shape _ _ heq
  · exact absurd h (by simp)

/-- Claim C5 witness: the general anchoring conjunct applied at a concrete
successfully parsed input. -/
theorem parse_image_anchored_witness :
    ∃ r, ("![]() test").data = '!' :: '[' :: r :=
  parse_image_anchored.2 "![]() test" (Span.Image "" "" none none) 5 rfl

/-- Claim C7: `as_text` renders exactly "{width}x{height}", "{width}x",
"x{height}" or "" according to which fields are present, and `as_html`
renders the corresponding attribute string with absent fields omitted and
no separator token. -/
theorem object_size_rendering (w h : String) :
    ObjectSize.as_text ⟨some w, some h⟩ = w ++ "x" ++ h ∧
    ObjectSize.as_text ⟨some w, none⟩ = w ++ "x" ∧
    ObjectSize.as_text ⟨none, some h⟩ = "x" ++ h ∧
    ObjectSize.as_text ⟨none, none⟩ = "" ∧
    ObjectSize.as_html ⟨some w, some h⟩ = "width=\"" ++ w ++ "\" height=\"" ++ h ++ "\"" ∧
    ObjectSize.as_html ⟨some w, none⟩ = "width=\"" ++ w ++ "\"" ∧
    ObjectSize.as_html ⟨none, some h⟩ = "height=\"" ++ h ++ "\"" ∧
    ObjectSize.as_html ⟨none, none⟩ = "" :=
  ⟨rfl, rfl, rfl, rfl, rfl, rfl, rfl, rfl⟩

/-- Claim C8: `OrderedListType.from_str` maps "a", "A", "i", "I" to the four
letter styles and every other string, pure digit strings included, to
`Numeric`. -/
theorem ordered_list_type_from_str_mapping :
    OrderedListType.from_str "a" = OrderedListType.Lowercase ∧
    OrderedListType.from_str "A" = OrderedListType.Uppercase ∧
    OrderedListType.from_str "i" = OrderedListType.LowercaseRoman ∧
    OrderedListType.from_str "I" = OrderedListType.UppercaseRoman ∧
    ∀ s : String, s ≠ "a" → s ≠ "A" → s ≠ "i" → s ≠ "I" →
      OrderedListType.from_str s = OrderedListType.Numeric := by
  refine ⟨rfl, rfl, rfl, rfl, fun s h1 h2 h3 h4 => ?_⟩
  unfold OrderedListType.from_str
  rw [if_neg h1, if_neg h2, if_neg h3, if_neg h4]

/-- Claim C8 witness: the catch-all conjunct applied at the pure digit
string "1". -/
theorem ordered_list_type_from_str_mapping_witness :
    OrderedListType.from_str "1" = OrderedListType.Numeric :=
  ordered_list_type_from_str_mapping.2.2.2.2 "1"
    (by decide) (by decide) (by decide) (by decide)

/-- Claim C9: serialization inverts parsing: `from_str (to_str t) = t` for
every marker style, and `to_str` is a fixed single-character string
(it takes no numeric item value at all). -/
theorem ordered_list_type_round_trip (t : OrderedListType) :
    OrderedListType.from_str (OrderedListType.to_str t) = t ∧
    (OrderedListType.to_str t).length = 1 := by
  cases t <;> exact ⟨rfl, rfl⟩

theorem splitAtSep_append (sep : Char) (l r : List Char) (hsep : sep = 'x' ∨ sep = 'X')
    (hl : ∀ c ∈ l, ¬(c = 'x' ∨ c = 'X')) :
    splitAtSep (l ++ sep :: r) = some (l, r) := by
  induction l with
  | nil => rcases hsep with h | h <;> simp [splitAtSep, h]
  | cons c t ih =>
    have hc := hl c (List.mem_cons_self c t)
    push_neg at hc
    simp [splitAtSep, hc.1, hc.2, ih (fun d hd => hl d (List.mem_cons_of_mem c hd))]

theorem splitAtSep_none (l : List Char) (hl : ∀ c ∈ l, ¬(c = 'x' ∨ c = 'X')) :
    splitAtSep l = none := by
  induction l with
  | nil => rfl
  | cons c t ih =>
    have hc := hl c (List.mem_cons_self c t)
    push_neg at hc
    simp [splitAtSep, hc.1, hc.2, ih (fun d hd => hl d (List.mem_cons_of_mem c hd))]

theorem from_text_with_sep (text : String) (sep : Char) (l r : List Char)
    (hdecomp : text.data = l ++ sep :: r) (hsep : sep = 'x' ∨ sep = 'X')
    (hl : ∀ c ∈ l, ¬(c = 'x' ∨ c = 'X')) :
    ObjectSize.from_text text =
      (if trimChars l = [] ∧ trimChars r = [] then none
       else some ⟨if trimChars l = [] then none else some (String.mk (trimChars l)),
                  if trimChars r = [] then none else some (String.mk (trimChars r))⟩) := by
  unfold ObjectSize.from_text
  rw [hdecomp, splitAtSep_append sep l r hsep hl]
  by_cases hw : trimChars l = [] <;> by_cases hh : trimChars r = [] <;>
    simp [hw, hh]

theorem from_text_no_sep (text : String)
    (hl : ∀ c ∈ text.data, ¬(c = 'x' ∨ c = 'X')) :
    ObjectSize.from_text text =
      (if text.data = [] then none else some ⟨some text, none⟩) := by
  unfold ObjectSize.from_text
  rw [splitAtSep_none text.data hl]
  by_cases h : text.data = [] <;> simp [h]

/-- Claim C2 (amended): `from_text` splits on the first `x`/`X`; with a
separator, the trimmed sides become width/height (empty sides absent) and
`some` is returned exactly when a side is non-empty; with no separator the
whole UNTRIMMED text becomes the width provided the text is non-empty. -/
theorem from_text_split_characterization (text : String) :
    (∀ (sep : Char) (l r : List Char), text.data = l ++ sep :: r →
      (sep = 'x' ∨ sep = 'X') → (∀ c ∈ l, ¬(c = 'x' ∨ c = 'X')) →
      ObjectSize.from_text text =
        (if trimChars l = [] ∧ trimChars r = [] then none
         else some ⟨if trimChars l = [] then none else some (String.mk (trimChars l)),
                    if trimChars r = [] then none else some (String.mk (trimChars r))⟩)) ∧
    ((∀ c ∈ text.data, ¬(c = 'x' ∨ c = 'X')) →
      ObjectSize.from_text text =
        (if text.data = [] then none else some ⟨some text, none⟩)) :=
  ⟨fun sep l r hdecomp hsep hl => from_text_with_sep text sep l r hdecomp hsep hl,
   fun hl => from_text_no_sep text hl⟩

/-- Claim C2 witness: the separator and no-separator conjuncts applied at the
concrete inputs "12x34" and "ab". -/
theorem from_text_split_characterization_witness :
    ObjectSize.from_text "12x34" = some ⟨some "12", some "34"⟩ ∧
    ObjectSize.from_text "ab" = some ⟨some "ab", none⟩ := by
  constructor
  · have h := (from_text_split_characterization "12x34").1 'x' ['1', '2'] ['3', '4']
      (by decide) (Or.inl rfl) (by decide)
    rw [h]; decide
  · have h := (from_text_split_characterization "ab").2 (by decide)
    rw [h]; decide

/-- Claim C2 counterexample: on the separator-free input "a " the code keeps
the untrimmed text as the width, so the claimed trimming to "a" is false. -/
theorem from_text_trim_counterexample :
    ObjectSize.from_text "a " = some ⟨some "a ", none⟩ ∧
    ObjectSize.from_text "a " ≠ some ⟨some "a", none⟩ ∧
    trimChars ("a ").data = ['a'] := by decide

/-- Claim C6: every `ObjectSize` produced by `from_text` has at least one
of width and height present; the all-absent case is returned as `none`. -/
theorem from_text_field_present (text : String) (os : ObjectSize)
    (h : ObjectSize.from_text text = some os) :
    ¬(os.width = none ∧ os.height = none) := by
  rintro ⟨hw, hh⟩
  unfold ObjectSize.from_text at h
  split at h
  · split at h
    · next hcond =>
      have hos := Option.some.inj h
      rcases hcond with hc | hc
      · rw [← hos] at hw
        simp [hc] at hw
      · rw [← hos] at hh
        simp [hc] at hh
    · exact absurd h (by simp)
  · split at h
    · have hos := Option.some.inj h
      rw [← hos] at hw
      simp at hw
    · exact absurd h (by simp)

/-- Claim C6 witness: the theorem applied at the concrete input "x222". -/
theorem from_text_field_present_witness :
    ¬((⟨none, some "222"⟩ : ObjectSize).width = none ∧
      (⟨none, some "222"⟩ : ObjectSize).height = none) :=
  from_text_field_present "x222" ⟨none, some "222"⟩ rfl

/-- Claim C3: for well-formed size strings (sides non-empty, free of `x`/`X`
and of surrounding whitespace), `from_text` followed by `as_text` reproduces
the normalized form: "{w}x{h}", "{w}x" and "x{h}" reproduce themselves, bare
"{w}" normalizes to "{w}x"; and `from_text` rejects "" and "x". -/
theorem size_round_trip (w h : String)
    (hw : w.data ≠ []) (hh : h.data ≠ [])
    (hwx : ∀ c ∈ w.data, ¬(c = 'x' ∨ c = 'X'))
    (hhx : ∀ c ∈ h.data, ¬(c = 'x' ∨ c = 'X'))
    (hwt : trimChars w.data = w.data) (hht : trimChars h.data = h.data) :
    (ObjectSize.from_text (w ++ "x" ++ h)).map ObjectSize.as_text = some (w ++ "x" ++ h) ∧
    (ObjectSize.from_text (w ++ "x")).map ObjectSize.as_text = some (w ++ "x") ∧
    (ObjectSize.from_text ("x" ++ h)).map ObjectSize.as_text = some ("x" ++ h) ∧
    (ObjectSize.from_text w).map ObjectSize.as_text = some (w ++ "x") ∧
    ObjectSize.from_text "" = none ∧
    ObjectSize.from_text "x" = none := by
  refine ⟨?_, ?_, ?_, ?_, rfl, rfl⟩
  · have hd : (w ++ "x" ++ h).data = w.data ++ 'x' :: h.data := by
      show (w.data ++ ['x']) ++ h.data = w.data ++ 'x' :: h.data
      simp
    rw [from_text_with_sep (w ++ "x" ++ h) 'x' w.data h.data hd (Or.inl rfl) hwx]
    rw [hwt, hht, if_neg (by exact fun hc => hw hc.1), if_neg hw, if_neg hh]
    rfl
  · have hd : (w ++ "x").data = w.data ++ 'x' :: [] := by
      show w.data ++ ['x'] = w.data ++ 'x' :: []
      rfl
    rw [from_text_with_sep (w ++ "x") 'x' w.data [] hd (Or.inl rfl) hwx]
    rw [hwt, if_neg (by exact fun hc => hw hc.1), if_neg hw, if_pos (show trimChars ([] : List Char) = [] from rfl)]
    rfl
  · have hd : ("x" ++ h).data = [] ++ 'x' :: h.data := by
      show ['x'] ++ h.data = [] ++ 'x' :: h.data
      rfl
    rw [from_text_with_sep ("x" ++ h) 'x' [] h.data hd (Or.inl rfl) (by simp)]
    rw [hht, if_neg (by exact fun hc => hh hc.2), if_pos (show trimChars ([] : List Char) = [] from rfl), if_neg hh]
    rfl
  · rw [from_text_no_sep w hwx, if_neg hw]
    rfl

/-- Claim C3 witness: the round trip applied at w = "12", h = "34". -/
theorem size_round_trip_witness :
    (ObjectSize.from_text ("12" ++ "x" ++ "34")).map ObjectSize.as_text = some ("12" ++ "x" ++ "34") ∧
    (ObjectSize.from_text ("12" ++ "x")).map ObjectSize.as_text = some ("12" ++ "x") ∧
    (ObjectSize.from_text ("x" ++ "34")).map ObjectSize.as_text = some ("x" ++ "34") ∧
    (ObjectSize.from_text "12").map ObjectSize.as_text = some ("12" ++ "x") ∧
    ObjectSize.from_text "" = none ∧
    ObjectSize.from_text "x" = none :=
  size_round_trip "12" "34" (by decide) (by decide) (by decide) (by decide)
    (by decide) (by decide)

theorem takeSizeRun_all (l : List Char) : ∀ c ∈ (takeSizeRun l).1, isSizeChar c = true := by
  induction l with
  | nil => intro c hc; simp [takeSizeRun] at hc
  | cons a t ih =>
    intro c hc
    by_cases ha : isSizeChar a
    · simp [takeSizeRun, ha] at hc
      rcases hc with rfl | hc
      · exact ha
      · exact ih c hc
    · simp [takeSizeRun, ha] at hc

theorem sizeGroupClose_chars (l cs rest : List Char)
    (h : sizeGroupClose l = some (some cs, rest)) : ∀ c ∈ cs, isSizeChar c = true := by
  unfold sizeGroupClose at h
  split at h
  · next a r =>
    split at h
    · split at h
      · next run r2 heq =>
        intro c hc
        have hrun := takeSizeRun_all r
        rw [heq] at hrun
        have h1 : run = cs := by
          have := Option.some.inj h
          exact (Option.some.inj (congrArg Prod.fst this))
        exact hrun c (h1 ▸ hc)
      · exact absurd h (by simp)
    · exact absurd h (by simp)
  · exact absurd h (by simp)

theorem matchSizeClose_chars (l : List Char) (o : Option (List Char)) (rest : List Char)
    (h : matchSizeClose l = some (o, rest)) :
    ∀ cs, o = some cs → ∀ c ∈ cs, isSizeChar c = true := by
  intro cs ho
  subst ho
  unfold matchSizeClose at h
  split at h
  · next q heq =>
    cases h
    exact sizeGroupClose_chars l cs rest heq
  · unfold closeOnly at h
    split at h
    · exact absurd (Option.some.inj h) (by simp)
    · exact absurd h (by simp)

theorem firstSome_eq_some (f : α → Option β) (l : List α) (b : β)
    (h : firstSome f l = some b) : ∃ a ∈ l, f a = some b := by
  induction l with
  | nil => simp [firstSome] at h
  | cons a t ih =>
    unfold firstSome at h
    split at h
    · next heq => exact ⟨a, List.mem_cons_self a t, heq.trans h⟩
    · obtain ⟨a2, ha2, hfa⟩ := ih h
      exact ⟨a2, List.mem_cons_of_mem a ha2, hfa⟩

theorem titleGroupRest_chars (l : List Char)
    (ti o : Option (List Char)) (rest : List Char)
    (h : titleGroupRest l = some (ti, o, rest)) :
    ∀ cs, o = some cs → ∀ c ∈ cs, isSizeChar c = true := by
  intro cs ho
  subst ho
  unfold titleGroupRest at h
  split at h
  · split at h
    · obtain ⟨p, _, hfp⟩ := firstSome_eq_some _ _ _ h
      split at hfp
      · rename_i r2 hp2
        cases hmc : matchSizeClose r2 with
        | none => rw [hmc] at hfp; simp at hfp
        | some q =>
          rw [hmc] at hfp
          simp only [Option.map_some', Option.some.injEq, Prod.mk.injEq] at hfp
          exact matchSizeClose_chars r2 q.1 q.2 (by rw [hmc]) cs hfp.2.1
      · exact absurd hfp (by simp)
    · exact absurd h (by simp)
  · exact absurd h (by simp)

theorem matchTitleSizeClose_chars (l : List Char)
    (ti o : Option (List Char)) (rest : List Char)
    (h : matchTitleSizeClose l = some (ti, o, rest)) :
    ∀ cs, o = some cs → ∀ c ∈ cs, isSizeChar c = true := by
  intro cs ho
  unfold matchTitleSizeClose at h
  split at h
  · next q heq =>
    cases h
    exact titleGroupRest_chars l ti o rest heq cs ho
  · cases hmc : matchSizeClose l with
    | none => rw [hmc] at h; simp at h
    | some q =>
      rw [hmc] at h
      simp only [Option.map_some', Option.some.injEq, Prod.mk.injEq] at h
      exact matchSizeClose_chars l q.1 q.2 (by rw [hmc]) cs (h.2.1 ▸ ho)

theorem matchUrlOn_chars (l u : List Char)
    (ti o : Option (List Char)) (rest : List Char)
    (h : matchUrlOn l = some (u, ti, o, rest)) :
    ∀ cs, o = some cs → ∀ c ∈ cs, isSizeChar c = true := by
  intro cs ho
  obtain ⟨p, _, hfp⟩ := firstSome_eq_some _ _ _ h
  cases hmc : matchTitleSizeClose p.2 with
  | none => rw [hmc] at hfp; simp at hfp
  | some q =>
    rw [hmc] at hfp
    simp only [Option.map_some', Option.some.injEq, Prod.mk.injEq] at hfp
    refine matchTitleSizeClose_chars p.2 q.1 q.2.1 q.2.2 (by rw [hmc]) cs ?_
    rw [hfp.2.2.1]
    exact ho

theorem imageCaptures_chars (l t u : List Char)
    (ti o : Option (List Char)) (rest : List Char)
    (h : imageCaptures l = some (t, u, ti, o, rest)) :
    ∀ cs, o = some cs → ∀ c ∈ cs, isSizeChar c = true := by
  intro cs ho
  unfold imageCaptures at h
  split at h
  · obtain ⟨p, _, hfp⟩ := firstSome_eq_some _ _ _ h
    split at hfp
    · rename_i r2 hp2
      cases hmc : matchUrlOn r2 with
      | none => rw [hmc] at hfp; simp at hfp
      | some q =>
        rw [hmc] at hfp
        simp only [Option.map_some', Option.some.injEq, Prod.mk.injEq] at hfp
        refine matchUrlOn_chars r2 q.1 q.2.1 q.2.2.1 q.2.2.2 (by rw [hmc]) cs ?_
        rw [hfp.2.2.2.1]
        exact ho
    · exact absurd hfp (by simp)
  · exact absurd h (by simp)

theorem trimChars_mem (l : List Char) : ∀ c ∈ trimChars l, c ∈ l := by
  intro c hc
  unfold trimChars at hc
  rw [List.mem_reverse] at hc
  have h1 := (List.dropWhile_sublist isWsChar).subset hc
  rw [List.mem_reverse] at h1
  exact (List.dropWhile_sublist isWsChar).subset h1

theorem splitAtSep_mem (l : List Char) (p : List Char × List Char)
    (h : splitAtSep l = some p) : (∀ c ∈ p.1, c ∈ l) ∧ ∀ c ∈ p.2, c ∈ l := by
  induction l generalizing p with
  | nil => simp [splitAtSep] at h
  | cons a t ih =>
    unfold splitAtSep at h
    split at h
    · cases h
      refine ⟨fun c hc => absurd hc (by simp), fun c hc => List.mem_cons_of_mem a hc⟩
    · cases hs : splitAtSep t with
      | none => rw [hs] at h; simp at h
      | some q =>
        rw [hs] at h
        simp only [Option.map_some', Option.some.injEq] at h
        obtain ⟨h1, h2⟩ := ih q hs
        subst h
        constructor
        · intro c hc
          rcases List.mem_cons.mp hc with rfl | hc
          · exact List.mem_cons_self c t
          · exact List.mem_cons_of_mem a (h1 c hc)
        · intro c hc
          exact List.mem_cons_of_mem a (h2 c hc)

theorem from_text_sizechars (text : String) (os : ObjectSize)
    (hall : ∀ c ∈ text.data, isSizeChar c = true)
    (h : ObjectSize.from_text text = some os) : sizeStrOk os = true := by
  unfold ObjectSize.from_text at h
  split at h
  · next p heq =>
    split at h
    · cases h
      obtain ⟨h1, h2⟩ := splitAtSep_mem text.data p heq
      have hmem1 : ∀ c ∈ trimChars p.1, isSizeChar c = true :=
        fun c hc => hall c (h1 c (trimChars_mem p.1 c hc))
      have hmem2 : ∀ c ∈ trimChars p.2, isSizeChar c = true :=
        fun c hc => hall c (h2 c (trimChars_mem p.2 c hc))
      unfold sizeStrOk allSizeStr
      by_cases hw : trimChars p.1 = [] <;> by_cases hh : trimChars p.2 = [] <;>
        simp [hw, hh, List.all_eq_true] <;>
        first
          | exact hmem1
          | exact hmem2
          | exact ⟨hmem1, hmem2⟩
    · exact absurd h (by simp)
  · split at h
    · cases h
      unfold sizeStrOk allSizeStr
      simp [List.all_eq_true]
      exact fun c hc => hall c hc
    · exact absurd h (by simp)

/-- Claim C10: a size is attached by `parse_image` only when its captured
token consists solely of characters from `[0-9xX%]`: every size carried by a
returned image satisfies `sizeStrOk`; on an input whose would-be size token
contains another character (here "1a2") no size is attached — the " =..."
text is absorbed into the url — even though `ObjectSize.from_text` by itself
accepts the same token. -/
theorem parse_image_size_charset :
    (∀ (s t u : String) (ti : Option String) (os : ObjectSize) (n : Nat),
      parse_image s = some (Span.Image t u ti (some os), n) → sizeStrOk os = true) ∧
    parse_image "![my image](image.jpg =1a2) blah" =
      some (Span.Image "my image" "image.jpg =1a2" none none, 27) ∧
    ObjectSize.from_text "1a2" = some ⟨some "1a2", none⟩ := by
  refine ⟨?_, rfl, rfl⟩
  intro s t u ti os n h
  unfold parse_image at h
  split at h
  · next t2 u2 ti2 sz2 rem heq =>
    have hpair := Option.some.inj h
    have himg := congrArg Prod.fst hpair
    simp only at himg
    injection himg with h1 h2 h3 h4
    cases sz2 with
    | none => simp at h4
    | some cs =>
      simp only at h4
      have hcs := imageCaptures_chars s.data t2 u2 ti2 (some cs) rem heq cs rfl
      exact from_text_sizechars (String.mk cs) os hcs h4
  · exact absurd h (by simp)

/-- Claim C10 witness: the invariant applied to a concrete parse that does
attach a size. -/
theorem parse_image_size_charset_witness :
    sizeStrOk ⟨some "12", some "34"⟩ = true :=
  parse_image_size_charset.1 "![a](u =12x34)" "a" "u" none ⟨some "12", some "34"⟩ 14 rfl
